import Mathlib

/-!
Verification development for the hostile-tweets analysis service.

The Python source is shallowly embedded: a DataFrame text column is a
`List (Option String)` where `none` stands for a cell that is not a
string (for example NaN); fallible paths return `Except`; the sentiment
scorer (an external lexicon library) is an explicit function parameter;
the iteration order of a Python `set`, which is unspecified, is an
explicit list parameter constrained to be a duplicate-free enumeration
of the set's elements.
-/

namespace HostileTweets

/-- Model of Python's truthiness test `not text.strip()`: a string is
blank when every character is whitespace. -/
def isBlank (t : String) : Bool := t.data.all Char.isWhitespace

/-- Model of Python's `str.lower()` (ASCII case mapping, as in
`Char.toLower`). -/
def lowerStr (t : String) : String := ⟨t.data.map Char.toLower⟩

/-- Accumulator-based splitter behind `splitWs`; the accumulator holds the
current token reversed. -/
def splitWsAux : List Char → List Char → List (List Char)
  | [], [] => []
  | [], a :: as => [(a :: as).reverse]
  | c :: rest, acc =>
    if c.isWhitespace then
      match acc with
      | [] => splitWsAux rest []
      | a :: as => (a :: as).reverse :: splitWsAux rest []
    else splitWsAux rest (c :: acc)

/-- Model of Python's `str.split()` with no argument: split on runs of
whitespace, discarding empty pieces. -/
def splitWs (cs : List Char) : List (List Char) := splitWsAux cs []

/-- Tokens of a string, as Python's `text.split()`. -/
def pySplit (t : String) : List String := (splitWs t.data).map fun l => ⟨l⟩

/-- Tokens of the lowered text, as Python's `text.lower().split()`. -/
def tokensLower (t : String) : List String := pySplit (lowerStr t)

/-- Model of Python's `str.strip()`: drop leading and trailing
whitespace. -/
def pyStrip (s : String) : String :=
  ⟨((s.data.dropWhile Char.isWhitespace).reverse.dropWhile Char.isWhitespace).reverse⟩

/-- An admissible iteration order of the Python set
`set(text.lower().split())`: a duplicate-free list with exactly the
members of `tokensLower t`. -/
def SetOrder (t : String) (order : List String) : Prop :=
  order.Nodup ∧ (∀ w ∈ order, w ∈ tokensLower t) ∧ (∀ w ∈ tokensLower t, w ∈ order)

instance (t : String) (order : List String) : Decidable (SetOrder t order) := by
  unfold SetOrder; infer_instance

/-- Word frequencies over the joined corpus, as the `Counter` built in
`DataProcessor._find_rarest_word`; a `Counter` yields `0` for absent
keys. -/
def corpusJoin : List String → String
  | [] => ""
  | [t] => t
  | t :: rest => t ++ " " ++ corpusJoin rest

/-- The corpus word list `' '.join(df[text_column].dropna()).lower().split()`. -/
def allWords (rows : List (Option String)) : List String :=
  pySplit (lowerStr (corpusJoin (rows.filterMap id)))

/-- Corpus frequency of a word (`word_counts[word]`, default `0`). -/
def corpusCounts (rows : List (Option String)) (w : String) : Nat :=
  (allWords rows).count w

/-- One step of the minimum-tracking loop in `get_rarest_for_text`:
the accumulator is `none` before the first word (`min_count = inf`),
otherwise the current rarest word with its count; a word replaces it
only when its count is strictly smaller. -/
def rarestStep (counts : String → Nat) (acc : Option (String × Nat)) (w : String) :
    Option (String × Nat) :=
  match acc with
  | none => some (w, counts w)
  | some (r, m) => if counts w < m then some (w, counts w) else some (r, m)

/-- The loop `for word in words_in_text: ...` of `get_rarest_for_text`. -/
def rarestLoop (counts : String → Nat) (ws : List String) : Option (String × Nat) :=
  ws.foldl (rarestStep counts) none

/-- Embedding of the closure `get_rarest_for_text` in
`DataProcessor._find_rarest_word`: non-strings and blank strings map to
`""`; otherwise the loop runs over `order`, an iteration order of
`set(text.lower().split())`, and the final `rarest_word if rarest_word
else ""` is the `if` on the result. -/
def get_rarest_for_text (counts : String → Nat) (order : List String)
    (cell : Option String) : String :=
  match cell with
  | none => ""
  | some t =>
    if isBlank t then ""
    else
      match rarestLoop counts order with
      | none => ""
      | some rm => if rm.1 = "" then "" else rm.1

/-- Stated from the spec's words, for comparison with the code: the first
token in original token order whose frequency equals the minimum observed
frequency. -/
def spec_first_min (counts : String → Nat) (t : String) : String :=
  ((tokensLower t).find? fun w =>
    (tokensLower t).all fun v => decide (counts w ≤ counts v)).getD ""

/-! ## Helper lemmas on the tokenizer and the minimum-tracking loop -/

lemma splitWsAux_eq_nil_iff :
    ∀ (cs acc : List Char),
      splitWsAux cs acc = [] ↔ (cs.all Char.isWhitespace = true ∧ acc = []) := by
  intro cs
  induction cs with
  | nil => intro acc; cases acc <;> simp [splitWsAux]
  | cons c rest ih =>
    intro acc
    rcases hw : c.isWhitespace with _ | _
    · simp [splitWsAux, hw, ih]
    · cases acc <;> simp [splitWsAux, hw, ih]

lemma mem_splitWsAux_ne_nil :
    ∀ (cs acc t : List Char), t ∈ splitWsAux cs acc → t ≠ [] := by
  intro cs
  induction cs with
  | nil =>
    intro acc t ht
    cases acc with
    | nil => simp [splitWsAux] at ht
    | cons a as =>
      simp [splitWsAux] at ht
      subst ht
      simp
  | cons c rest ih =>
    intro acc t ht
    rcases hw : c.isWhitespace with _ | _
    · simp [splitWsAux, hw] at ht
      exact ih _ _ ht
    · cases acc with
      | nil =>
        simp [splitWsAux, hw] at ht
        exact ih _ _ ht
      | cons a as =>
        simp [splitWsAux, hw] at ht
        rcases ht with h1 | h1
        · subst h1; simp
        · exact ih _ _ h1

lemma toLower_isWhitespace_false (c : Char) (h : c.isWhitespace = false) :
    (Char.toLower c).isWhitespace = false := by
  simp only [Char.toLower]
  split
  · next hn =>
    obtain ⟨h1, h2⟩ := hn
    interval_cases h3 : c.toNat <;> decide
  · exact h

lemma toLower_not_upper (c : Char) :
    (65 ≤ (Char.toLower c).toNat && (Char.toLower c).toNat ≤ 90) = false := by
  simp only [Char.toLower]
  split
  · next hn =>
    obtain ⟨h1, h2⟩ := hn
    interval_cases h3 : c.toNat <;> decide
  · next hn =>
    simp only [not_and, not_le] at hn
    by_cases h65 : 65 ≤ c.toNat
    · have := hn h65
      simp [Nat.lt_iff_add_one_le] at this ⊢
      omega
    · simp at h65 ⊢
      omega

lemma splitWs_ne_nil_of_not_all_ws (cs : List Char)
    (h : cs.all Char.isWhitespace = false) : splitWs cs ≠ [] := by
  unfold splitWs
  intro hc
  rw [splitWsAux_eq_nil_iff] at hc
  simp [h] at hc

lemma tokensLower_ne_nil (t : String) (h : isBlank t = false) : tokensLower t ≠ [] := by
  unfold tokensLower pySplit lowerStr
  intro hc
  simp only [List.map_eq_nil_iff] at hc
  have : (t.data.map Char.toLower).all Char.isWhitespace = false := by
    unfold isBlank at h
    simp only [List.all_eq_false] at h ⊢
    rcases h with ⟨x, hx, hxw⟩
    exact ⟨Char.toLower x, List.mem_map_of_mem _ hx,
      by simp [toLower_isWhitespace_false x (by simpa using hxw)]⟩
  exact splitWs_ne_nil_of_not_all_ws _ this hc

lemma mem_tokensLower_ne_empty (t : String) (w : String) (h : w ∈ tokensLower t) :
    w ≠ "" := by
  unfold tokensLower pySplit at h
  rcases List.mem_map.mp h with ⟨l, hl, rfl⟩
  have hnil := mem_splitWsAux_ne_nil _ _ _ hl
  intro hc
  apply hnil
  have : (⟨l⟩ : String).data = ("" : String).data := by rw [hc]
  simpa using this

lemma rarestFold_sound (counts : String → Nat) :
    ∀ (ws : List String) (r : String),
      ∃ r', List.foldl (rarestStep counts) (some (r, counts r)) ws = some (r', counts r') ∧
        (r' = r ∨ r' ∈ ws) ∧ counts r' ≤ counts r ∧ ∀ w ∈ ws, counts r' ≤ counts w := by
  intro ws
  induction ws with
  | nil => intro r; exact ⟨r, rfl, Or.inl rfl, le_refl _, by simp⟩
  | cons w ws ih =>
    intro r
    simp only [List.foldl_cons]
    by_cases h : counts w < counts r
    · rw [show rarestStep counts (some (r, counts r)) w = some (w, counts w) by
        simp [rarestStep, h]]
      obtain ⟨r', h1, h2, h3, h4⟩ := ih w
      refine ⟨r', h1, ?_, ?_, ?_⟩
      · rcases h2 with h2 | h2
        · exact Or.inr (by simp [h2])
        · exact Or.inr (List.mem_cons_of_mem _ h2)
      · exact le_trans h3 (le_of_lt h)
      · intro v hv
        rcases List.mem_cons.mp hv with rfl | hv
        · exact h3
        · exact h4 _ hv
    · rw [show rarestStep counts (some (r, counts r)) w = some (r, counts r) by
        simp [rarestStep, h]]
      obtain ⟨r', h1, h2, h3, h4⟩ := ih r
      refine ⟨r', h1, ?_, h3, ?_⟩
      · rcases h2 with h2 | h2
        · exact Or.inl h2
        · exact Or.inr (List.mem_cons_of_mem _ h2)
      · intro v hv
        rcases List.mem_cons.mp hv with rfl | hv
        · exact le_trans h3 (not_lt.mp h)
        · exact h4 _ hv

lemma rarestLoop_sound (counts : String → Nat) (ws : List String) (h : ws ≠ []) :
    ∃ r, rarestLoop counts ws = some (r, counts r) ∧ r ∈ ws ∧
      ∀ w ∈ ws, counts r ≤ counts w := by
  rcases ws with _ | ⟨w, ws⟩
  · simp at h
  · unfold rarestLoop
    simp only [List.foldl_cons]
    rw [show rarestStep counts none w = some (w, counts w) from rfl]
    obtain ⟨r', h1, h2, h3, h4⟩ := rarestFold_sound counts ws w
    refine ⟨r', h1, ?_, ?_⟩
    · rcases h2 with rfl | h2
      · exact List.mem_cons_self _ _
      · exact List.mem_cons_of_mem _ h2
    · intro v hv
      rcases List.mem_cons.mp hv with rfl | hv
      · exact h3
      · exact h4 _ hv

/-- Core soundness of the per-text rarest-word closure, shared by the
claims below: on a non-blank string it returns a token of the text whose
frequency (under any frequency function, in particular the corpus
counter) is minimal over the text's tokens; on blank or non-string cells
it returns the empty string, and only then. -/
lemma get_rarest_sound (counts : String → Nat) (t : String) (order : List String)
    (h : SetOrder t order) :
    get_rarest_for_text counts order none = "" ∧
    (get_rarest_for_text counts order (some t) = "" ↔ isBlank t = true) ∧
    (isBlank t = false →
      get_rarest_for_text counts order (some t) ∈ tokensLower t ∧
      ∀ w ∈ tokensLower t, counts (get_rarest_for_text counts order (some t)) ≤ counts w) := by
  have key : isBlank t = false →
      ∃ r, get_rarest_for_text counts order (some t) = r ∧ r ∈ tokensLower t ∧
        ∀ w ∈ tokensLower t, counts r ≤ counts w := by
    intro hb
    have hOrder : order ≠ [] := by
      have htok := tokensLower_ne_nil t hb
      rcases List.exists_mem_of_ne_nil _ htok with ⟨w, hw⟩
      intro hc
      rw [hc] at h
      exact absurd (h.2.2 w hw) (List.not_mem_nil w)
    obtain ⟨r, h1, h2, h3⟩ := rarestLoop_sound counts order hOrder
    have hrt : r ∈ tokensLower t := h.2.1 r h2
    have hr0 : r ≠ "" := mem_tokensLower_ne_empty t r hrt
    refine ⟨r, ?_, hrt, fun w hw => h3 w (h.2.2 w hw)⟩
    simp [get_rarest_for_text, hb, h1, hr0]
  refine ⟨rfl, ?_, ?_⟩
  · rcases hb : isBlank t with _ | _
    · obtain ⟨r, hval, hrt, _⟩ := key hb
      rw [hval]
      simp [mem_tokensLower_ne_empty t r hrt, hb]
    · simp [get_rarest_for_text, hb]
  · intro hb
    obtain ⟨r, hval, hrt, hmin⟩ := key hb
    rw [hval]
    exact ⟨hrt, hmin⟩

/-! ## Claims C1 and C4: rarest-word extraction -/

/-- C4: for every input text, the rarest-word extractor returns either the
empty string (exactly when the input is blank or not a string) or a token
that appears in that text, and the returned token's frequency in the
extractor's scope (any frequency function, in particular the table-wide
corpus counter) equals the minimum frequency over all tokens of that
text. -/
theorem rarest_word_sound (counts : String → Nat) (t : String) (order : List String)
    (h : SetOrder t order) :
    get_rarest_for_text counts order none = "" ∧
    (get_rarest_for_text counts order (some t) = "" ↔ isBlank t = true) ∧
    (isBlank t = false →
      get_rarest_for_text counts order (some t) ∈ tokensLower t ∧
      ∀ w ∈ tokensLower t, counts (get_rarest_for_text counts order (some t)) ≤ counts w) :=
  get_rarest_sound counts t order h

/-- Witness for C4 at the text "hello world hello" with a concrete
admissible set order. -/
theorem rarest_word_sound_witness :
    get_rarest_for_text (corpusCounts [some "hello world hello"]) ["hello", "world"]
      (some "hello world hello") ∈ tokensLower "hello world hello" :=
  ((rarest_word_sound (corpusCounts [some "hello world hello"]) "hello world hello"
    ["hello", "world"] (by decide)).2.2 (by decide)).1

/-- C1 counterexample: on the spec's own example corpus "the gun was the
only gun", the iteration order ["only", "was", "the", "gun"] is an
admissible order of the Python set of deduplicated tokens, the spec's
first-in-original-order tie-break yields "was", but the code yields
"only" under that order: the tie is not broken by first occurrence. -/
theorem rarest_tiebreak_counterexample :
    SetOrder "the gun was the only gun" ["only", "was", "the", "gun"] ∧
    spec_first_min (corpusCounts [some "the gun was the only gun"])
      "the gun was the only gun" = "was" ∧
    get_rarest_for_text (corpusCounts [some "the gun was the only gun"])
      ["only", "was", "the", "gun"] (some "the gun was the only gun") = "only" ∧
    ("only" : String) ≠ "was" := by
  refine ⟨by decide, by decide, by decide, by decide⟩

/-- C1 (amended): on the single-text corpus "the gun was the only gun"
the extractor returns a token of minimum frequency — "was" or "only" —
for every admissible iteration order of the token set; which of the two
is returned depends on the set's unspecified iteration order, not on
first occurrence in the text. -/
theorem rarest_tiebreak_amended (order : List String)
    (h : SetOrder "the gun was the only gun" order) :
    get_rarest_for_text (corpusCounts [some "the gun was the only gun"]) order
      (some "the gun was the only gun") = "was" ∨
    get_rarest_for_text (corpusCounts [some "the gun was the only gun"]) order
      (some "the gun was the only gun") = "only" := by
  obtain ⟨hmem, hmin⟩ := (get_rarest_sound (corpusCounts [some "the gun was the only gun"])
      "the gun was the only gun" order h).2.2 (by decide)
  have ht : tokensLower "the gun was the only gun"
      = ["the", "gun", "was", "the", "only", "gun"] := by decide
  rw [ht] at hmem
  have hmin' := hmin "was" (by rw [ht]; simp)
  simp only [List.mem_cons, List.not_mem_nil, or_false] at hmem
  rcases hmem with h1 | h1 | h1 | h1 | h1 | h1
  · rw [h1] at hmin'; exact absurd hmin' (by decide)
  · rw [h1] at hmin'; exact absurd hmin' (by decide)
  · exact Or.inl h1
  · rw [h1] at hmin'; exact absurd hmin' (by decide)
  · exact Or.inr h1
  · rw [h1] at hmin'; exact absurd hmin' (by decide)

/-- Witness for the amended C1 at a concrete admissible order. -/
theorem rarest_tiebreak_amended_witness :
    get_rarest_for_text (corpusCounts [some "the gun was the only gun"])
      ["was", "only", "the", "gun"] (some "the gun was the only gun") = "was" ∨
    get_rarest_for_text (corpusCounts [some "the gun was the only gun"])
      ["was", "only", "the", "gun"] (some "the gun was the only gun") = "only" :=
  rarest_tiebreak_amended ["was", "only", "the", "gun"] (by decide)

/-! ## Claim C5: weapon detection -/

/-- Word character for the regex word boundary: the ASCII model of `\w`. -/
def isWordChar (c : Char) : Bool := c.isAlphanum || c = '_'

/-- Whether the character at position `i` of `cs` is a word character;
out-of-range positions count as non-word. -/
def wordAt (cs : List Char) (i : Nat) : Bool :=
  match cs.get? i with
  | some c => isWordChar c
  | none => false

/-- The escaped pattern matches literally at position `i` of `text` with a
word boundary on each side, as the search for the compiled pattern
backslash-b term backslash-b does at that position. -/
def matchAt (text pat : List Char) (i : Nat) : Bool :=
  ((text.drop i).take pat.length == pat) &&
  ((if i = 0 then false else wordAt text (i - 1)) != wordAt text i) &&
  (wordAt text (i + pat.length - 1) != wordAt text (i + pat.length))

/-- Whether the whole-word regex search for `pat` succeeds anywhere in
`text`, as the truthiness of the search result. -/
def hasWholeWord (text pat : List Char) : Bool :=
  (List.range text.length).any fun i => matchAt text pat i

/-- Embedding of `DataProcessor._find_weapons`: blank or non-string text
yields the empty string; otherwise the first weapon in iteration order
whose whole-word regex matches the lowered text is returned, or the
empty string when none matches. -/
def find_weapons (weapons : List String) (cell : Option String) : String :=
  match cell with
  | none => ""
  | some t =>
    if isBlank t then ""
    else
      match weapons.find? (fun w => hasWholeWord (lowerStr t).data w.data) with
      | some w => w
      | none => ""

/-- C5: for every input text and weapon set, weapon detection returns
either the empty string or a term that is a member of the weapon set and
occurs in the lowered text as a whole word (word-boundary match, not a
mere substring); an empty weapon set, a non-string cell, or blank text
always yields the empty string. -/
theorem find_weapons_sound (weapons : List String) (cell : Option String) :
    (find_weapons weapons cell = "" ∨
      (find_weapons weapons cell ∈ weapons ∧
        hasWholeWord (lowerStr (cell.getD "")).data (find_weapons weapons cell).data = true)) ∧
    (weapons = [] → find_weapons weapons cell = "") ∧
    (cell = none → find_weapons weapons cell = "") ∧
    (∀ t, cell = some t → isBlank t = true → find_weapons weapons cell = "") := by
  refine ⟨?_, ?_, ?_, ?_⟩
  · rcases cell with _ | t
    · exact Or.inl rfl
    · rcases hb : isBlank t with _ | _
      · rcases hf : weapons.find? (fun w => hasWholeWord (lowerStr t).data w.data) with _ | w
        · exact Or.inl (by simp [find_weapons, hb, hf])
        · refine Or.inr ⟨?_, ?_⟩
          · have := List.mem_of_find?_eq_some hf
            simpa [find_weapons, hb, hf] using this
          · have := List.find?_some hf
            simpa [find_weapons, hb, hf] using this
      · exact Or.inl (by simp [find_weapons, hb])
  · intro h
    subst h
    rcases cell with _ | t
    · rfl
    · rcases hb : isBlank t with _ | _ <;> simp [find_weapons, hb]
  · intro h; subst h; rfl
  · intro t h hb
    subst h
    simp [find_weapons, hb]

/-- Witness for C5 at the spec's example: weapon set containing "gun" and
the text "the gun was the only gun". -/
theorem find_weapons_sound_witness :
    (find_weapons ["gun"] (some "the gun was the only gun") = "" ∨
      (find_weapons ["gun"] (some "the gun was the only gun") ∈ ["gun"] ∧
        hasWholeWord (lowerStr ((some "the gun was the only gun").getD "")).data
          (find_weapons ["gun"] (some "the gun was the only gun")).data = true)) ∧
    ((["gun"] : List String) = [] → find_weapons ["gun"] (some "the gun was the only gun") = "") ∧
    ((some "the gun was the only gun" : Option String) = none →
      find_weapons ["gun"] (some "the gun was the only gun") = "") ∧
    (∀ t, (some "the gun was the only gun" : Option String) = some t → isBlank t = true →
      find_weapons ["gun"] (some "the gun was the only gun") = "") :=
  find_weapons_sound ["gun"] (some "the gun was the only gun")

/-! ## Claim C6: sentiment classification -/

/-- Embedding of `DataProcessor._get_sentiment`. -/
def get_sentiment (scorer : String → Except String ℚ) (cell : Option String) : String :=
  match cell with
  | none => "neutral"
  | some t =>
    if isBlank t then "neutral"
    else
      match scorer t with
      | Except.error _ => "neutral"
      | Except.ok score =>
        if (1 : ℚ) / 2 ≤ score then "positive"
        else if score ≤ -(1 / 2 : ℚ) then "negative"
        else "neutral"

lemma get_sentiment_ok (scorer : String → Except String ℚ) (t : String) (s : ℚ)
    (hb : isBlank t = false) (hs : scorer t = Except.ok s) :
    get_sentiment scorer (some t) =
      if (1 : ℚ) / 2 ≤ s then "positive"
      else if s ≤ -(1 / 2 : ℚ) then "negative" else "neutral" := by
  simp only [get_sentiment, hb, Bool.false_eq_true, if_false, hs]

/-- C6 -/
theorem get_sentiment_spec (scorer : String → Except String ℚ) (cell : Option String) :
    get_sentiment scorer cell ∈ ["positive", "negative", "neutral"] ∧
    (cell = none → get_sentiment scorer cell = "neutral") ∧
    (∀ t, cell = some t → isBlank t = true → get_sentiment scorer cell = "neutral") ∧
    (∀ t e, cell = some t → isBlank t = false → scorer t = Except.error e →
      get_sentiment scorer cell = "neutral") ∧
    (∀ t s, cell = some t → isBlank t = false → scorer t = Except.ok s →
      ((get_sentiment scorer cell = "positive" ↔ (1 : ℚ) / 2 ≤ s) ∧
       (get_sentiment scorer cell = "negative" ↔ s ≤ -(1 / 2 : ℚ)) ∧
       (get_sentiment scorer cell = "neutral" ↔ -(1 / 2 : ℚ) < s ∧ s < (1 : ℚ) / 2))) := by
  refine ⟨?_, ?_, ?_, ?_, ?_⟩
  · rcases cell with _ | t
    · simp [get_sentiment]
    · rcases hb : isBlank t with _ | _
      · rcases hs : scorer t with e | s
        · simp only [get_sentiment, hb, Bool.false_eq_true, if_false, hs]
          simp
        · rw [get_sentiment_ok scorer t s hb hs]
          split_ifs <;> simp
      · simp [get_sentiment, hb]
  · intro h; subst h; rfl
  · intro t h hb
    subst h
    simp [get_sentiment, hb]
  · intro t e h hb hs
    subst h
    simp only [get_sentiment, hb, Bool.false_eq_true, if_false, hs]
  · intro t s h hb hs
    subst h
    rw [get_sentiment_ok scorer t s hb hs]
    split_ifs with h1 h2
    · exact ⟨⟨fun _ => h1, fun _ => rfl⟩,
        ⟨fun hc => absurd hc (by decide), fun hc => absurd (le_trans h1 hc) (by norm_num)⟩,
        ⟨fun hc => absurd hc (by decide), fun hc => absurd h1 (by push_neg; linarith [hc.2])⟩⟩
    · refine ⟨⟨fun hc => absurd hc (by decide), fun hc => absurd hc h1⟩,
        ⟨fun _ => h2, fun _ => rfl⟩,
        ⟨fun hc => absurd hc (by decide), fun hc => absurd h2 (by push_neg; linarith [hc.1])⟩⟩
    · push_neg at h1 h2
      exact ⟨⟨fun hc => absurd hc (by decide), fun hc => absurd hc (by push_neg; exact h1)⟩,
        ⟨fun hc => absurd hc (by decide), fun hc => absurd hc (by push_neg; exact h2)⟩,
        ⟨fun _ => ⟨h2, h1⟩, fun _ => rfl⟩⟩

/-- C6 witness -/
theorem get_sentiment_spec_witness :
    get_sentiment (fun _ => Except.ok ((3 : ℚ) / 4)) (some "great") = "positive" :=
  (((get_sentiment_spec (fun _ => Except.ok ((3 : ℚ) / 4)) (some "great")).2.2.2.2
    "great" ((3 : ℚ) / 4) rfl (by decide) rfl).1).mpr (by norm_num)

/-! ## Claim C7: batch processing preserves the record count -/

/-- The sentiment label always lies in the three-label set; shared by the
batch-processing claims. -/
lemma get_sentiment_mem (scorer : String → Except String ℚ) (cell : Option String) :
    get_sentiment scorer cell ∈ ["positive", "negative", "neutral"] := by
  rcases cell with _ | t
  · simp [get_sentiment]
  · rcases hb : isBlank t with _ | _
    · rcases hs : scorer t with e | s
      · simp only [get_sentiment, hb, Bool.false_eq_true, if_false, hs]
        simp
      · rw [get_sentiment_ok scorer t s hb hs]
        split_ifs <;> simp
    · simp [get_sentiment, hb]

/-- An annotated record: the original text cell plus the three derived
columns, with the text field under its output name `original_text`. -/
structure ProcessedRow where
  original_text : Option String
  rarest_word : String
  sentiment : String
  weapons_detected : String
deriving DecidableEq

/-- Embedding of `DataProcessor.process_data`: an empty table is returned
unchanged; otherwise the three derived columns are computed from the text
column (the column-wise `apply` calls are modelled as one row-wise map
producing all three fields), with the rarest word judged against the
table-wide corpus counter. -/
def process_data (scorer : String → Except String ℚ) (ord : String → List String)
    (weapons : List String) (rows : List (Option String)) : List ProcessedRow :=
  if rows.isEmpty then []
  else
    rows.map fun cell =>
      { original_text := cell
        rarest_word := get_rarest_for_text (corpusCounts rows) (ord (cell.getD "")) cell
        sentiment := get_sentiment scorer cell
        weapons_detected := find_weapons weapons cell }

/-- C7 -/
theorem process_data_length (scorer : String → Except String ℚ)
    (ord : String → List String) (weapons : List String)
    (rows : List (Option String)) :
    (process_data scorer ord weapons rows).length = rows.length ∧
    ∀ row ∈ process_data scorer ord weapons rows,
      row.sentiment ∈ ["positive", "negative", "neutral"] := by
  constructor
  · unfold process_data
    rcases h : rows.isEmpty with _ | _
    · simp [h]
    · simp [List.isEmpty_iff.mp h]
  · intro row hrow
    unfold process_data at hrow
    rcases h : rows.isEmpty with _ | _
    · rw [if_neg (by simp [h])] at hrow
      rcases List.mem_map.mp hrow with ⟨cell, _, rfl⟩
      exact get_sentiment_mem scorer cell
    · rw [if_pos h] at hrow
      simp at hrow

/-! ## Claim C8: weapon-list loaders -/

/-- A string containing no ASCII uppercase letter; the formal reading of
"lowercase" for loaded weapon terms. -/
def noUpper (w : String) : Bool := w.data.all fun c => !(65 ≤ c.toNat && c.toNat ≤ 90)

/-- Embedding of `DataProcessor._load_weapons`: the file is `none` when
missing (the `FileNotFoundError` branch) and otherwise its list of lines;
the comprehension keeps the stripped, lowered form of each non-blank
line. -/
def load_weapons_processor (file : Option (List String)) : Finset String :=
  match file with
  | none => ∅
  | some lines =>
    ((lines.filter fun l => pyStrip l ≠ "").map fun l => lowerStr (pyStrip l)).toFinset

/-- Embedding of `AnalysisManager._load_weapons`: as the processor's
loader but without lowering — the comprehension keeps `line.strip()`
unchanged. -/
def load_weapons_manager (file : Option (List String)) : Finset String :=
  match file with
  | none => ∅
  | some lines =>
    ((lines.filter fun l => pyStrip l ≠ "").map fun l => pyStrip l).toFinset

lemma noUpper_lowerStr (s : String) : noUpper (lowerStr s) = true := by
  unfold noUpper lowerStr
  simp only [List.all_eq_true]
  intro c hc
  rcases List.mem_map.mp (by simpa using hc) with ⟨x, _, rfl⟩
  simp [toLower_not_upper x]

lemma lowerStr_eq_empty (s : String) (h : lowerStr s = "") : s = "" := by
  unfold lowerStr at h
  have hd : (⟨s.data.map Char.toLower⟩ : String).data = ("" : String).data := by rw [h]
  simp at hd
  have hsd : s.data = [] := by simpa using hd
  exact String.ext (by simp [hsd])

/-- C8 counterexample -/
theorem load_weapons_case_counterexample :
    "Gun" ∈ load_weapons_manager (some ["Gun"]) ∧ noUpper "Gun" = false := by
  refine ⟨by decide, by decide⟩

/-- C8 (amended) -/
theorem load_weapons_amended (lines : List String) :
    load_weapons_processor none = ∅ ∧
    load_weapons_manager none = ∅ ∧
    (∀ w ∈ load_weapons_processor (some lines), noUpper w = true ∧ w ≠ "" ∧
      ∃ l ∈ lines, pyStrip l ≠ "" ∧ w = lowerStr (pyStrip l)) ∧
    (∀ w ∈ load_weapons_manager (some lines), w ≠ "" ∧
      ∃ l ∈ lines, pyStrip l ≠ "" ∧ w = pyStrip l) := by
  refine ⟨rfl, rfl, ?_, ?_⟩
  · intro w hw
    simp only [load_weapons_processor, List.mem_toFinset, List.mem_map, List.mem_filter] at hw
    rcases hw with ⟨l, ⟨hl, hne⟩, rfl⟩
    refine ⟨noUpper_lowerStr _, ?_, l, hl, by simpa using hne, rfl⟩
    intro hc
    exact absurd (lowerStr_eq_empty _ hc) (by simpa using hne)
  · intro w hw
    simp only [load_weapons_manager, List.mem_toFinset, List.mem_map, List.mem_filter] at hw
    rcases hw with ⟨l, ⟨hl, hne⟩, rfl⟩
    exact ⟨by simpa using hne, l, hl, by simpa using hne, rfl⟩

/-- C8 witness -/
theorem load_weapons_amended_witness :
    noUpper "rifle" = true ∧ ("rifle" : String) ≠ "" ∧
    ∃ l ∈ [" Rifle ", "  "], pyStrip l ≠ "" ∧ ("rifle" : String) = lowerStr (pyStrip l) :=
  (load_weapons_amended [" Rifle ", "  "]).2.2.1 "rifle" (by decide)

/-! ## Claims C2, C3, C9, C10: orchestration and the HTTP surface -/

/-- Modelled from the spec: the analysis orchestrator's state. The
orchestrator that `app/main.py` invokes as `run_full_analysis` is absent
from the sources (the manager in `app/manager.py` exposes only
`start_analysis`, which has no completion flag); spec section 4.5
describes it as idempotent by a completion flag with a cached result
list. -/
structure Orchestrator where
  is_processed : Bool
  cache : List ProcessedRow
deriving DecidableEq

/-- Modelled from the spec: the missing `run_full_analysis` of section
4.5 — when the completion flag is set, return the cached list and do no
recomputation (third component `false`); otherwise run the batch
processor over the fetched rows, cache the result and set the flag. -/
def run_full_analysis (scorer : String → Except String ℚ) (ord : String → List String)
    (weapons : List String) (raw : List (Option String)) (st : Orchestrator) :
    Orchestrator × List ProcessedRow × Bool :=
  if st.is_processed then (st, st.cache, false)
  else
    let res := process_data scorer ord weapons raw
    ({ is_processed := true, cache := res }, res, true)

/-- Embedding of the endpoint `get_processed_data` in `app/main.py`: a
startup error gives HTTP 503, results not yet present give 503, and
otherwise the cached list is returned with a success status. -/
def get_processed_data_endpoint (startup_error : Option String)
    (processed_results : Option (List ProcessedRow)) : Except Nat (List ProcessedRow) :=
  match startup_error with
  | some _ => Except.error 503
  | none =>
    match processed_results with
    | none => Except.error 503
    | some res => Except.ok res

/-- Modelled from the spec: the success path of the `lifespan` startup in
`app/main.py` — fetch, run the (missing) `run_full_analysis` once from a
fresh orchestrator, cache the produced list in `processed_results` and
leave `startup_error` unset. -/
def lifespan_startup (scorer : String → Except String ℚ) (ord : String → List String)
    (weapons : List String) (fetched : List (Option String)) :
    Option (List ProcessedRow) × Option String :=
  (some (run_full_analysis scorer ord weapons fetched ⟨false, []⟩).2.1, none)

/-- C2 -/
theorem run_full_analysis_idempotent (scorer : String → Except String ℚ)
    (ord : String → List String) (weapons : List String) (raw : List (Option String)) :
    (run_full_analysis scorer ord weapons raw ⟨false, []⟩).2.2 = true ∧
    (run_full_analysis scorer ord weapons raw
        (run_full_analysis scorer ord weapons raw ⟨false, []⟩).1).2.1
      = (run_full_analysis scorer ord weapons raw ⟨false, []⟩).2.1 ∧
    (run_full_analysis scorer ord weapons raw
        (run_full_analysis scorer ord weapons raw ⟨false, []⟩).1).2.2 = false ∧
    (run_full_analysis scorer ord weapons raw
        (run_full_analysis scorer ord weapons raw ⟨false, []⟩).1).1
      = (run_full_analysis scorer ord weapons raw ⟨false, []⟩).1 := by
  simp [run_full_analysis]

/-- C3 -/
theorem empty_fetch_returns_empty_list (scorer : String → Except String ℚ)
    (ord : String → List String) (weapons : List String) :
    get_processed_data_endpoint (lifespan_startup scorer ord weapons []).2
      (lifespan_startup scorer ord weapons []).1 = Except.ok [] := by
  simp [lifespan_startup, get_processed_data_endpoint, run_full_analysis, process_data]

/-- Embedding of `AnalysisManager.get_processed_data`: an unset table
(`data_as_df is None`) yields the empty list; otherwise the table's
records. -/
def manager_get_processed_data (data_as_df : Option (List ProcessedRow)) :
    List ProcessedRow :=
  match data_as_df with
  | none => []
  | some df => df

/-- C9 -/
theorem manager_get_processed_data_none :
    manager_get_processed_data none = [] ∧
    manager_get_processed_data none = manager_get_processed_data (some []) :=
  ⟨rfl, rfl⟩

/-- Python truthiness of the `processed_results` global: `None` and the
empty list are falsy. -/
def pyTruthy (x : Option (List ProcessedRow)) : Bool :=
  match x with
  | none => false
  | some l => !l.isEmpty

/-- The JSON object returned by `GET /stats`. -/
structure StatsResponse where
  total_processed_records : Nat
  startup_error : Option String
  status : String
  database_connected : Bool

/-- Embedding of the endpoint `get_stats` in `app/main.py`: both the
record count and the readiness flag are guarded by the truthiness of
`processed_results`. -/
def get_stats (processed_results : Option (List ProcessedRow))
    (startup_error : Option String) (db_connected : Bool) : StatsResponse :=
  { total_processed_records :=
      if pyTruthy processed_results then (processed_results.getD []).length else 0
    startup_error := startup_error
    status := if pyTruthy processed_results then "ready" else "not_ready"
    database_connected := db_connected }

/-- C10 -/
theorem get_stats_empty_not_ready (err : Option String) (db : Bool) :
    (get_stats (some []) err db).status = "not_ready" ∧
    (get_stats (some []) err db).total_processed_records = 0 ∧
    ∀ res : Option (List ProcessedRow),
      ((get_stats res err db).status = "ready" ↔ pyTruthy res = true) := by
  refine ⟨rfl, rfl, ?_⟩
  intro res
  rcases ht : pyTruthy res with _ | _
  · simp [get_stats, ht]
  · simp [get_stats, ht]

/-- C10 witness -/
theorem get_stats_empty_not_ready_witness :
    (get_stats (some []) none true).status = "not_ready" ∧
    (get_stats (some []) none true).total_processed_records = 0 ∧
    ∀ res : Option (List ProcessedRow),
      ((get_stats res none true).status = "ready" ↔ pyTruthy res = true) :=
  get_stats_empty_not_ready none true

/-- C7 witness -/
theorem process_data_length_witness :
    (process_data (fun _ => Except.ok 0) (fun t => [t]) ["gun"] [some "a gun", none]).length
      = ([some "a gun", none] : List (Option String)).length :=
  (process_data_length (fun _ => Except.ok 0) (fun t => [t]) ["gun"] [some "a gun", none]).1

end HostileTweets
